import Mathlib

/-!
Verification of the option-resolution and pipeline-control logic of
spritesheet.js (`src/index.js`).  JavaScript strings are modelled as
`List Char`; JS library functions (`String.prototype.substring`,
`String.prototype.lastIndexOf`, `String.prototype.split`, `parseInt`,
`Number`, node's `path.posix.dirname`) are embedded with their ECMAScript /
node semantics on the value shapes the program can produce.
-/

namespace Spritesheet

/-- A registered output format: template file name, descriptor file extension,
default trim flag (`src/index.js` lines 11-24). -/
structure Format where
  template : String
  extension : String
  trim : Bool
deriving DecidableEq, Repr

/-- The `FORMATS` table of `src/index.js` (lines 11-24), as the JS object
property lookup: `FORMATS[s]` is `undefined` (here `none`) for any key not in
the table. -/
def FORMATS : String → Option Format
  | "json" => some ⟨"json.template", "json", false⟩
  | "yaml" => some ⟨"yaml.template", "yaml", false⟩
  | "jsonarray" => some ⟨"jsonarray.template", "json", false⟩
  | "pixi.js" => some ⟨"json.template", "json", true⟩
  | "starling" => some ⟨"starling.template", "xml", true⟩
  | "sparrow" => some ⟨"starling.template", "xml", true⟩
  | "easel.js" => some ⟨"easeljs.template", "json", false⟩
  | "egret" => some ⟨"egret.template", "json", false⟩
  | "zebkit" => some ⟨"zebkit.template", "js", false⟩
  | "cocos2d" => some ⟨"cocos2d.template", "plist", false⟩
  | "cocos2d-v3" => some ⟨"cocos2d-v3.template", "plist", false⟩
  | "css" => some ⟨"css.template", "css", false⟩
  | _ => none

/-- The record registered under the key `"pixi.js"`. -/
def pixiFormat : Format := ⟨"json.template", "json", true⟩

/-- The `options.format` value as `generate` may receive it: an array of
identifiers, a single identifier string, or absent (`undefined`). -/
inductive FormatOpt
  | list (l : List String)
  | single (s : String)
  | absent
deriving DecidableEq, Repr

/-- Format resolution of `generate` (`src/index.js` lines 171-180).
`customFormat` is the raw option string (`""` when not supplied; `""` is
JS-falsy).  Result `some fmts`: `options.format` is rewritten to an array of
`FORMATS` records (`none` entries are `undefined` array members); result
`none`: the branch is not taken and `options.format` is left untouched
(custom-template path). -/
def resolveFormats (fmt : FormatOpt) (customFormat : String) : Option (List (Option Format)) :=
  match fmt with
  | .list l => some (l.map FORMATS)
  | .single s =>
    if s ≠ "" then some [some ((FORMATS s).getD pixiFormat)]
    else if customFormat = "" then some [some ((FORMATS s).getD pixiFormat)]
    else none
  | .absent =>
    if customFormat = "" then some [some ((FORMATS "undefined-key").getD pixiFormat)]
    else none

/-- Resolution of `options.trim` (`src/index.js` line 190): a supplied value
(`hasOwnProperty`) wins, otherwise the first resolved format's `trim` flag. -/
def resolveTrim (trim : Option Bool) (fmt0 : Format) : Bool :=
  match trim with
  | some b => b
  | none => fmt0.trim

/-- Resolution of `options.extension` (`src/index.js` line 189): a supplied
value wins, otherwise the first resolved format's registered extension. -/
def resolveExtension (ext : Option String) (fmt0 : Format) : String :=
  match ext with
  | some e => e
  | none => fmt0.extension

/-- A CLI option value as optimist delivers it to the `.check` callback: the
`null` default, a number, or a raw string. -/
inductive JsVal
  | null
  | num (n : Int)
  | str (s : List Char)
deriving DecidableEq, Repr

/-- Character-class test used by JS numeric conversions for whitespace. -/
def isJsWhitespace (c : Char) : Bool :=
  c == ' ' || c == '\t' || c == '\n' || c == '\r'

/-- A (possibly signed, possibly fractional) decimal numeral, as accepted by
JS `Number` on a trimmed non-empty string (hex, binary, `Infinity` and
exponent forms do not occur among the program's option values). -/
def isDecimalNumeral (l : List Char) : Bool :=
  let body := match l with
    | '-' :: u => u
    | '+' :: u => u
    | u => u
  let intPart := body.takeWhile Char.isDigit
  match body.drop intPart.length with
  | [] => !intPart.isEmpty
  | '.' :: frac => frac.all Char.isDigit && (!intPart.isEmpty || !frac.isEmpty)
  | _ => false

/-- JS `!isNaN(Number(v))` as used by the CLI check (`src/index.js` line 125):
`Number(null)` is `0` and `Number("")` (or a whitespace-only string) is `0`,
so both count as numeric; a non-empty string is numeric exactly when it is a
decimal numeral. -/
def jsIsNumeric : JsVal → Bool
  | .null => true
  | .num _ => true
  | .str s =>
    let t := ((s.dropWhile isJsWhitespace).reverse.dropWhile isJsWhitespace).reverse
    t.isEmpty || isDecimalNumeral t

/-- The optimist `.check` callback (`src/index.js` lines 124-130): `true`
means the invocation is accepted, `false` means the
"Width and/or height are not defined for binpacking" error is thrown. -/
def binpackingCheck (algorithm : String) (width height : JsVal) : Bool :=
  algorithm != "binpacking" || (jsIsNumeric width && jsIsNumeric height)

/-- Value of a non-empty run of leading decimal digits; `none` when there is
no leading digit. -/
def digitsVal (l : List Char) : Option Nat :=
  let ds := l.takeWhile Char.isDigit
  if ds.isEmpty then none
  else some (ds.foldl (fun acc c => acc * 10 + (c.toNat - '0'.toNat)) 0)

/-- JS `parseInt(s, 10)`: skip leading whitespace, read an optional sign, then
the longest run of leading decimal digits; `none` models `NaN` (no digits). -/
def jsParseInt10 (s : List Char) : Option Int :=
  let t := s.dropWhile isJsWhitespace
  match t with
  | '-' :: u => (digitsVal u).map (fun n => -(n : Int))
  | '+' :: u => (digitsVal u).map (fun n => (n : Int))
  | u => (digitsVal u).map (fun n => (n : Int))

/-- Resolution of `options.padding` (`src/index.js` line 199): a supplied
value goes through `parseInt(·, 10)` (`none` in the result models `NaN`), an
absent one defaults to `0`. -/
def resolvePadding : Option (List Char) → Option Int
  | some v => jsParseInt10 v
  | none => some 0

/-- Index of the last occurrence of `c` in `l`, or `none`: the inner
computation of JS `String.prototype.lastIndexOf` for a one-character search
string. -/
def lastIdx? : List Char → Char → Option Nat
  | [], _ => none
  | a :: t, c =>
    match lastIdx? t c with
    | some j => some (j + 1)
    | none => if a = c then some 0 else none

/-- JS `s.lastIndexOf(c)` for a one-character search string: the index of the
last occurrence, or `-1`. -/
def jsLastIndexOf (l : List Char) (c : Char) : Int :=
  match lastIdx? l c with
  | some j => (j : Int)
  | none => -1

/-- JS `s.substring(a, b)`: both arguments are clamped to `[0, length]`, the
smaller clamped value is the start and the larger the end, and the characters
of `[start, end)` are returned. -/
def jsSubstring (l : List Char) (a b : Int) : List Char :=
  let n := l.length
  let a' := min a.toNat n
  let b' := min b.toNat n
  (l.take (max a' b')).drop (min a' b')

/-- JS `s.split(sep)` for a one-character separator (never returns `[]`; an
empty string splits to `[[]]`, matching JS `[""]`). -/
def jsSplit (l : List Char) (c : Char) : List (List Char) :=
  match l with
  | [] => [[]]
  | a :: t =>
    let r := jsSplit t c
    if a = c then [] :: r
    else (a :: r.headD []) :: r.tail

/-- JS `Array.prototype.pop` applied to a split result (the split is never
empty, so the default is unreachable). -/
def jsPop (l : List (List Char)) : List Char :=
  l.getLastD []

/-- JS `s.replace(/\\ /g, " ")` as applied to the unlink targets
(`src/index.js` lines 230 and 234): every backslash-space pair becomes a
single space, scanning left to right. -/
def replaceEscapedSpaces : List Char → List Char
  | '\\' :: ' ' :: t => ' ' :: replaceEscapedSpaces t
  | c :: t => c :: replaceEscapedSpaces t
  | [] => []

/-- Scan phase of node `path.posix.dirname`: node walks the indices
`len-1 .. 1` from the right, first skipping trailing slashes
(`matchedSlash`), then stopping at the first slash that follows a non-slash;
`end` is that index.  Scanning `(p.drop 1).reverse` left to right visits the
same characters, the two `dropWhile`s are the two scan phases, and the found
index `end` equals the length of the remaining suffix (empty when no slash
was found, i.e. `end = -1`). -/
def dirnameScan (p : List Char) : List Char :=
  (((p.drop 1).reverse).dropWhile (· == '/')).dropWhile (· != '/')

/-- Node `path.posix.dirname`: dispatch on the scan result exactly as node
does on `end` and `hasRoot`. -/
def dirname (p : List Char) : List Char :=
  if p.isEmpty then ['.']
  else if (dirnameScan p).isEmpty then (if p.head? == some '/' then ['/'] else ['.'])
  else if (p.head? == some '/') && ((dirnameScan p).length == 1) then ['/', '/']
  else p.take ((dirnameScan p).length)

/-- Resolution of `options.name` (`src/index.js` lines 182-184):
`options.name || path.dirname(files[0]).split("/").pop()`, where a JS-falsy
name (absent or the empty string) takes the default. -/
def resolveName (name : Option (List Char)) (files0 : List Char) : List Char :=
  match name with
  | some s => if s.isEmpty then jsPop (jsSplit (dirname files0) '/') else s
  | none => jsPop (jsSplit (dirname files0) '/')

/-- Frame-name computation of the `files.map` callback (`src/index.js` lines
204-220): with `fullpath`, `item.substring(0, item.lastIndexOf("."))`;
otherwise `options.prefix + resolvedItem.substring(resolvedItem.lastIndexOf(path.sep) + 1,
resolvedItem.lastIndexOf("."))` (posix `path.sep` is `"/"`). -/
def frameName (fullpath : Bool) (pfx item resolvedItem : List Char) : List Char :=
  if fullpath then
    jsSubstring item 0 (jsLastIndexOf item '.')
  else
    pfx ++ jsSubstring resolvedItem (jsLastIndexOf resolvedItem '/' + 1) (jsLastIndexOf resolvedItem '.')

/-- Spec-side description: the base name of a path — everything after the
last slash (the whole path when it has no slash). -/
def baseNameOf (l : List Char) : List Char :=
  (l.reverse.takeWhile (· != '/')).reverse

/-- Spec-side description: a path with its extension removed — the last dot
and everything after it are dropped. -/
def stripExtension (l : List Char) : List Char :=
  ((l.reverse.dropWhile (· != '.')).drop 1).reverse

example : dirname ("assets/a.png".toList) = "assets".toList := by rfl
example : dirname ("/x/assets/a.png".toList) = "/x/assets".toList := by rfl
example : resolveName none ("assets/a.png".toList) = "assets".toList := by rfl
example : resolveName none ("sub/dir/a.png".toList) = "dir".toList := by rfl
example : frameName true "p_".toList "dir/a.png".toList "/x/dir/a.png".toList = "dir/a".toList := by rfl
example : frameName false "p_".toList "dir/a.png".toList "/x/dir/a.png".toList = "p_a".toList := by rfl
example : baseNameOf "/x/dir/a.png".toList = "a.png".toList := by rfl
example : stripExtension "dir/a.png".toList = "dir/a".toList := by rfl
example : replaceEscapedSpaces "a\\ b".toList = "a b".toList := by rfl

/-- A file-system state: the existing directories and the existing regular
files, each identified by path. -/
structure FS where
  dirs : List (List Char)
  files : List (List Char)
deriving DecidableEq, Repr

/-- The output-directory preparation of `generate` (`src/index.js` lines
222-236), with node's `path.resolve` (an external path library function)
abstracted as the parameter `resolve`: when the output path does not exist it
is created (unless it is the empty string); when it exists, a pre-existing
`<path>/<name>.png` and a pre-existing `<path>/<name>.json` are each unlinked
(the unlink target has its escaped spaces unescaped, as in the source).
`unlinkSync` models node `fs.unlinkSync`: it removes the file at the exact
path, and throws (ENOENT) when no file exists there.  `cleanupFiles` is the
existing-directory branch (lines 228-235): when a png exists at the resolved
path, unlink the backslash-space-rewritten path — a different path whenever
the resolved one contains a backslash-space, so the unlink can throw or
remove another file — then the same for the json; a thrown unlink aborts the
block, as the synchronous source does. -/
def unlinkSync (files : List (List Char)) (p : List Char) : Except String (List (List Char)) :=
  if p ∈ files then .ok (files.erase p) else .error "ENOENT"

def cleanupFiles (files : List (List Char)) (png json : List Char) :
    Except String (List (List Char)) :=
  match (if png ∈ files then unlinkSync files (replaceEscapedSpaces png) else .ok files) with
  | .error e => .error e
  | .ok files1 =>
    if json ∈ files1 then unlinkSync files1 (replaceEscapedSpaces json) else .ok files1

/-- The whole preparation block of `generate` (src/index.js lines 222-236),
see `cleanupFiles`; an unlink error propagates out of `generate`. -/
def outputCleanup (resolve : List Char → List Char) (fs : FS) (outPath name : List Char) :
    Except String FS :=
  if outPath ∉ fs.dirs then
    .ok (if outPath ≠ [] then ⟨outPath :: fs.dirs, fs.files⟩ else fs)
  else
    (cleanupFiles fs.files
        (resolve (outPath ++ '/' :: (name ++ '.' :: "png".toList)))
        (resolve (outPath ++ '/' :: (name ++ '.' :: "json".toList)))).map
      (fun fl => ⟨fs.dirs, fl⟩)

/-- Modelled from the spec: the Sink persist step (the writes live in
`lib/generator`, which is not under `src/`) — "given a target directory …, a
base name, and a (bytes, extension) pair, persists the bytes, overwriting any
pre-existing file of the same resolved name; must not error on repeated
writes within a run".  Writing a path replaces any previous file at that
path and always succeeds. -/
def sinkWrite (fs : FS) (p : List Char) : Except String FS :=
  .ok { fs with files := p :: fs.files.erase p }

/-- Events observable during a run: a numbered pipeline stage starting, and
the two true side effects (the Compositor's atlas write and the Descriptor
Emitter's descriptor write). -/
inductive Ev
  | stage (i : Nat)
  | writeAtlas
  | writeDescriptor
deriving DecidableEq, Repr

/-- Abstract outcomes of the three generator-lib stages that can fail
fatally.  Modelled from the spec: `lib/generator`'s stage bodies are not
under `src/`; per the spec's error taxonomy every fatal error kind
(`DecodeError`, `PackingOverflow`, `ValidationError`) arises in the first
three stages, the compositing/emission stages' only own error
(`OptimizerFailure`) is non-fatal, and "the Compositor's write and the
Descriptor Emitter's write are the only true side effects".  Stages 4 and 5
are therefore modelled as emitting their write and succeeding. -/
structure StageOutcomes where
  treatImages : Except String Unit
  getImagesSizes : Except String Unit
  determineCanvasSize : Except String Unit
deriving Repr

/-- The `async.waterfall` chain of `generate` (`src/index.js` lines 238-257):
`treatImages`, `getImagesSizes`, `determineCanvasSize`, `generateImage`,
`generateData`, each stage starting only after the previous one succeeded and
the first error ending the chain as the callback's error.  The result is the
event trace together with the error handed to the final callback. -/
def runWaterfall (o : StageOutcomes) : List Ev × Option String :=
  match o.treatImages with
  | .error e => ([.stage 1], some e)
  | .ok _ =>
    match o.getImagesSizes with
    | .error e => ([.stage 1, .stage 2], some e)
    | .ok _ =>
      match o.determineCanvasSize with
      | .error e => ([.stage 1, .stage 2, .stage 3], some e)
      | .ok _ =>
        ([.stage 1, .stage 2, .stage 3, .stage 4, .writeAtlas, .stage 5, .writeDescriptor], none)

/-- Errors `generate` can hand to its callback before or during the
pipeline. -/
inductive GenError
  | noInputFiles
  | stageError (e : String)
deriving DecidableEq, Repr

/-- The head of `generate` (`src/index.js` lines 163-169) followed by the
waterfall: the glob result `files` is the Source Provider's answer, and an
empty result returns the "no files found..." error to the callback before
any stage starts. -/
def generate (files : List (List Char)) (o : StageOutcomes) : List Ev × Option GenError :=
  if files.length = 0 then ([], some .noInputFiles)
  else ((runWaterfall o).1, (runWaterfall o).2.map .stageError)

example : generate [] ⟨.ok (), .ok (), .ok ()⟩ = ([], some .noInputFiles) := by rfl
example : runWaterfall ⟨.ok (), .error "decode", .ok ()⟩ = ([.stage 1, .stage 2], some "decode") := by rfl
example : resolvePadding none = some 0 := by rfl
example : resolvePadding (some ['-', '3']) = some (-3) := by rfl
example : resolvePadding (some ['1', '2']) = some 12 := by rfl
example : resolvePadding (some ['a', 'b']) = none := by rfl
example : binpackingCheck "binpacking" JsVal.null JsVal.null = true := by rfl
example : binpackingCheck "binpacking" (JsVal.str ['a']) JsVal.null = false := by rfl
example : binpackingCheck "vertical" (JsVal.str ['a']) JsVal.null = true := by rfl
example : resolveFormats (.single "bogus") "" = some [some pixiFormat] := by rfl

theorem lastIdx?_eq_none_iff (l : List Char) (c : Char) : lastIdx? l c = none ↔ c ∉ l := by
  induction l with
  | nil => simp [lastIdx?]
  | cons a t ih =>
    simp only [lastIdx?, List.mem_cons]
    cases h : lastIdx? t c with
    | some j =>
      have hmem : c ∈ t := by
        by_contra hn
        rw [ih.mpr hn] at h
        exact Option.noConfusion h
      simp [hmem]
    | none =>
      have hnt : c ∉ t := ih.mp h
      constructor
      · intro he
        rcases Decidable.em (a = c) with hac | hac
        · simp [hac] at he
        · push_neg
          exact ⟨fun hc => hac hc.symm, hnt⟩
      · intro he
        have : ¬ a = c := fun hac => he (Or.inl hac.symm)
        simp [this]

theorem lastIdx?_append (A B : List Char) (c : Char) :
    lastIdx? (A ++ B) c =
      match lastIdx? B c with
      | some j => some (A.length + j)
      | none => lastIdx? A c := by
  induction A with
  | nil => cases h : lastIdx? B c <;> simp [lastIdx?, h]
  | cons a A ih =>
    simp only [List.cons_append, lastIdx?, List.append_eq, ih]
    cases h : lastIdx? B c with
    | some j =>
      simp only [List.length_cons]
      rw [Nat.add_right_comm]
    | none => simp [lastIdx?]

theorem lastIdx?_append_last (A B : List Char) (c : Char) (hB : c ∉ B) :
    lastIdx? (A ++ c :: B) c = some A.length := by
  rw [lastIdx?_append]
  have h1 : lastIdx? (c :: B) c = some 0 := by
    simp [lastIdx?, (lastIdx?_eq_none_iff B c).mpr hB]
  simp [h1]

theorem lastIdx?_decomp (l : List Char) (c : Char) (j : Nat) (h : lastIdx? l c = some j) :
    ∃ A B, l = A ++ c :: B ∧ A.length = j ∧ c ∉ B := by
  induction l generalizing j with
  | nil => simp [lastIdx?] at h
  | cons a t ih =>
    simp only [lastIdx?] at h
    cases ht : lastIdx? t c with
    | some j' =>
      rw [ht] at h
      obtain ⟨A, B, rfl, rfl, hB⟩ := ih j' ht
      have hj : A.length + 1 = j := by simpa using h
      exact ⟨a :: A, B, rfl, by simpa using hj, hB⟩
    | none =>
      rw [ht] at h
      rcases Decidable.em (a = c) with hac | hac
      · subst hac
        have hj : 0 = j := by simpa using h
        exact ⟨[], t, rfl, hj.symm ▸ rfl, (lastIdx?_eq_none_iff t a).mp ht⟩
      · simp [hac] at h
theorem jsSubstring_nat (l : List Char) (a b : Nat) (hab : a ≤ b) (hb : b ≤ l.length) :
    jsSubstring l (a : Int) (b : Int) = (l.take b).drop a := by
  have ha : a ≤ l.length := le_trans hab hb
  simp only [jsSubstring, Int.toNat_natCast]
  rw [Nat.min_eq_left ha, Nat.min_eq_left hb, Nat.max_eq_right hab, Nat.min_eq_left hab]

theorem jsSplit_ne_nil (l : List Char) (c : Char) : jsSplit l c ≠ [] := by
  cases l with
  | nil => simp [jsSplit]
  | cons a t =>
    simp only [jsSplit]
    rcases Decidable.em (a = c) with hac | hac <;> simp [hac]

theorem jsSplit_of_not_mem (l : List Char) (c : Char) (h : c ∉ l) : jsSplit l c = [l] := by
  induction l with
  | nil => rfl
  | cons a t ih =>
    have hac : ¬ a = c := fun hc => h (hc ▸ List.mem_cons_self a t)
    have ht : c ∉ t := fun hm => h (List.mem_cons_of_mem a hm)
    simp [jsSplit, hac, ih ht]

theorem jsSplit_length_two_le (l : List Char) (c : Char) (h : c ∈ l) :
    2 ≤ (jsSplit l c).length := by
  induction l with
  | nil => simp at h
  | cons a t ih =>
    have h1 : 1 ≤ (jsSplit t c).length :=
      Nat.one_le_iff_ne_zero.mpr (fun hz => jsSplit_ne_nil t c (List.length_eq_zero.mp hz))
    simp only [jsSplit]
    rcases Decidable.em (a = c) with hac | hac
    · simp only [if_pos hac, List.length_cons]
      omega
    · have hct : c ∈ t := by
        rcases List.mem_cons.mp h with h' | h'
        · exact absurd h'.symm hac
        · exact h'
      have h2 := ih hct
      simp only [if_neg hac, List.length_cons, List.length_tail]
      omega

theorem jsSplit_getLast?_append (A B : List Char) (c : Char) (hB : c ∉ B) :
    (jsSplit (A ++ c :: B) c).getLast? = some B := by
  induction A with
  | nil =>
    simp only [List.nil_append, jsSplit, if_pos rfl, jsSplit_of_not_mem B c hB]
    rfl
  | cons a A ih =>
    have hmem : c ∈ A ++ c :: B := List.mem_append_right A (List.mem_cons_self c B)
    have h2 := jsSplit_length_two_le (A ++ c :: B) c hmem
    obtain ⟨x, r', hr⟩ := List.exists_cons_of_ne_nil (jsSplit_ne_nil (A ++ c :: B) c)
    obtain ⟨y, r'', hr'⟩ : ∃ y r'', r' = y :: r'' := by
      cases r' with
      | nil => rw [hr] at h2; simp at h2
      | cons y r'' => exact ⟨y, r'', rfl⟩
    subst hr'
    rw [hr] at ih
    simp only [List.getLast?_cons_cons] at ih
    simp only [List.cons_append, jsSplit, List.append_eq, hr]
    rcases Decidable.em (a = c) with hac | hac
    · simp only [if_pos hac, List.getLast?_cons_cons]
      exact ih
    · simp only [if_neg hac, List.headD_cons, List.tail_cons, List.getLast?_cons_cons]
      exact ih

theorem baseNameOf_append (A B : List Char) (hB : '/' ∉ B) : baseNameOf (A ++ '/' :: B) = B := by
  have hall : ∀ x ∈ B.reverse, (x != '/') = true := by
    intro x hx
    have hx' : x ≠ '/' := fun hc => hB (hc ▸ List.mem_reverse.mp hx)
    simpa using hx'
  simp only [baseNameOf, List.reverse_append, List.reverse_cons]
  rw [List.append_assoc, List.takeWhile_append_of_pos hall]
  simp

theorem baseNameOf_of_not_mem (l : List Char) (h : '/' ∉ l) : baseNameOf l = l := by
  have hall : ∀ x ∈ l.reverse, (x != '/') = true := by
    intro x hx
    have hx' : x ≠ '/' := fun hc => h (hc ▸ List.mem_reverse.mp hx)
    simpa using hx'
  simp only [baseNameOf]
  rw [List.takeWhile_eq_self_iff.mpr hall, List.reverse_reverse]

theorem stripExtension_append (D E : List Char) (hE : '.' ∉ E) :
    stripExtension (D ++ '.' :: E) = D := by
  have hall : ∀ x ∈ E.reverse, (x != '.') = true := by
    intro x hx
    have hx' : x ≠ '.' := fun hc => hE (hc ▸ List.mem_reverse.mp hx)
    simpa using hx'
  simp only [stripExtension, List.reverse_append, List.reverse_cons]
  rw [List.append_assoc, List.dropWhile_append_of_pos hall]
  simp

theorem dirnameScan_append (d0 : Char) (dt fname : List Char) (hf : fname ≠ [])
    (hfs : '/' ∉ fname) :
    dirnameScan ((d0 :: dt) ++ '/' :: fname) = '/' :: dt.reverse := by
  obtain ⟨y, ys, hy⟩ := List.exists_cons_of_ne_nil
    (fun hz : fname.reverse = [] => hf (List.reverse_eq_nil_iff.mp hz))
  have hymem : y ∈ fname := List.mem_reverse.mp (hy ▸ List.mem_cons_self y ys)
  have hyne : (y == '/') = false := by
    have hy' : y ≠ '/' := fun hc => hfs (hc ▸ hymem)
    simpa using hy'
  have hallrev : ∀ x ∈ fname.reverse, (x != '/') = true := by
    intro x hx
    have hx' : x ≠ '/' := fun hc => hfs (hc ▸ List.mem_reverse.mp hx)
    simpa using hx'
  have h1 : ((d0 :: dt) ++ '/' :: fname).drop 1 = dt ++ '/' :: fname := by simp
  have h2 : (dt ++ '/' :: fname).reverse = fname.reverse ++ '/' :: dt.reverse := by
    simp [List.reverse_append]
  have h3 : (fname.reverse ++ '/' :: dt.reverse).dropWhile (· == '/')
      = fname.reverse ++ '/' :: dt.reverse := by
    rw [hy, List.cons_append, List.dropWhile_cons_of_neg (by simp [hyne]), ← List.cons_append]
  simp only [dirnameScan, h1, h2, h3]
  rw [List.dropWhile_append_of_pos hallrev, List.dropWhile_cons_of_neg (by simp)]

theorem dirname_append (dir fname : List Char) (hd : dir ≠ [])
    (hlast : dir.getLast? ≠ some '/') (hf : fname ≠ []) (hfs : '/' ∉ fname) :
    dirname (dir ++ '/' :: fname) = dir := by
  obtain ⟨d0, dt, rfl⟩ := List.exists_cons_of_ne_nil hd
  have hscan := dirnameScan_append d0 dt fname hf hfs
  have hcond : (((((d0 :: dt) ++ '/' :: fname).head? == some '/')
      && ((dirnameScan ((d0 :: dt) ++ '/' :: fname)).length == 1))) = false := by
    rw [hscan]
    cases dt with
    | nil =>
      have hd0 : d0 ≠ '/' := fun hc => hlast (by simp [hc])
      simp [hd0]
    | cons b bt =>
      have hlen : (('/' :: (b :: bt).reverse).length == 1) = false := by
        rw [beq_eq_false_iff_ne]
        simp
      simp [hlen]
  have htake : ((d0 :: dt) ++ '/' :: fname).take (dt.length + 1) = d0 :: dt :=
    List.take_left' (by simp)
  have hne : (((d0 :: dt) ++ '/' :: fname).isEmpty) = false := by simp
  have hscanne : (dirnameScan ((d0 :: dt) ++ '/' :: fname)).isEmpty = false := by
    rw [hscan]
    rfl
  rw [List.cons_append] at hscan hcond htake hne hscanne ⊢
  unfold dirname
  rw [if_neg (by simp [hne]), if_neg (by simp [hscanne]),
    if_neg (show ¬_ = true by rw [hcond]; exact Bool.false_ne_true), hscan]
  simp

theorem isDigit_not_ws (c : Char) (h : c.isDigit = true) : isJsWhitespace c = false := by
  have h1 : c ≠ ' ' := fun hc => by rw [hc] at h; exact absurd h (by decide)
  have h2 : c ≠ '\t' := fun hc => by rw [hc] at h; exact absurd h (by decide)
  have h3 : c ≠ '\n' := fun hc => by rw [hc] at h; exact absurd h (by decide)
  have h4 : c ≠ '\r' := fun hc => by rw [hc] at h; exact absurd h (by decide)
  simp [isJsWhitespace, h1, h2, h3, h4]

/-- C1: when any pipeline stage fails with a fatal error, the waterfall has
run its stages strictly in sequence up to the failing stage only — the event
trace is a prefix of the stage sequence — and neither the Compositor's atlas
write nor the Descriptor Emitter's descriptor write was ever invoked. -/
theorem pipeline_error_aborts_before_writes (o : StageOutcomes)
    (h : (runWaterfall o).2.isSome = true) :
    (∃ k, (runWaterfall o).1 = [Ev.stage 1, Ev.stage 2, Ev.stage 3].take k)
    ∧ Ev.writeAtlas ∉ (runWaterfall o).1 ∧ Ev.writeDescriptor ∉ (runWaterfall o).1 := by
  obtain ⟨s1, s2, s3⟩ := o
  cases s1 with
  | error e => exact ⟨⟨1, rfl⟩, by simp [runWaterfall], by simp [runWaterfall]⟩
  | ok u1 =>
    cases s2 with
    | error e => exact ⟨⟨2, rfl⟩, by simp [runWaterfall], by simp [runWaterfall]⟩
    | ok u2 =>
      cases s3 with
      | error e => exact ⟨⟨3, rfl⟩, by simp [runWaterfall], by simp [runWaterfall]⟩
      | ok u3 => simp [runWaterfall] at h

/-- Witness for C1 at a concrete failing run: the second stage fails with a
decode error, the trace stops at stage 2 and holds no write event. -/
theorem pipeline_error_aborts_before_writes_w :
    (∃ k, (runWaterfall ⟨Except.ok (), Except.error "decode", Except.ok ()⟩).1
      = [Ev.stage 1, Ev.stage 2, Ev.stage 3].take k)
    ∧ Ev.writeAtlas ∉ (runWaterfall ⟨Except.ok (), Except.error "decode", Except.ok ()⟩).1
    ∧ Ev.writeDescriptor ∉ (runWaterfall ⟨Except.ok (), Except.error "decode", Except.ok ()⟩).1 :=
  pipeline_error_aborts_before_writes ⟨Except.ok (), Except.error "decode", Except.ok ()⟩ (by rfl)

/-- C2: a run whose source set is empty hands the NoInputFiles error to the
callback with an empty event trace — no pipeline stage runs, and the run
does not silently succeed. -/
theorem empty_input_fails_before_stages (files : List (List Char)) (o : StageOutcomes)
    (h : files.length = 0) :
    generate files o = ([], some GenError.noInputFiles) := by
  simp [generate, h]

/-- Witness for C2: the empty source list, with all stages able to succeed,
still yields the NoInputFiles error and an empty trace. -/
theorem empty_input_fails_before_stages_w :
    generate [] ⟨Except.ok (), Except.ok (), Except.ok ()⟩ = ([], some GenError.noInputFiles) :=
  empty_input_fails_before_stages [] ⟨Except.ok (), Except.ok (), Except.ok ()⟩ rfl

/-- C3 counterexample: "bogus" is not a registered format name and no custom
template is supplied, yet the run does not fail — format resolution succeeds
and substitutes the pixi.js format, refuting the claimed UnsupportedFormat
error. -/
theorem unknown_format_no_error_cex :
    FORMATS "bogus" = none
    ∧ resolveFormats (FormatOpt.single "bogus") "" = some [some pixiFormat] :=
  ⟨rfl, rfl⟩

/-- C3 amended: for every unregistered non-empty format identifier with no
custom template supplied, the run does not fail — format resolution falls
back to the pixi.js format (`FORMATS[options.format] || FORMATS["pixi.js"]`)
and the run proceeds. -/
theorem unknown_format_falls_back_to_pixi (s : String) (hs : s ≠ "")
    (h : FORMATS s = none) :
    resolveFormats (FormatOpt.single s) "" = some [some pixiFormat] := by
  simp [resolveFormats, hs, h]

/-- Witness for the amended C3 at the unregistered identifier "bogus". -/
theorem unknown_format_falls_back_to_pixi_w :
    resolveFormats (FormatOpt.single "bogus") "" = some [some pixiFormat] :=
  unknown_format_falls_back_to_pixi "bogus" (by decide) (by rfl)

/-- C4, evaluated at the failing input: the CLI check accepts
`algorithm = "binpacking"` with neither width nor height supplied (both are
optimist's `null` default), because `Number(null)` is `0`, not `NaN`; the
claimed rejection does not happen. -/
theorem binpacking_null_dimensions_accepted :
    binpackingCheck "binpacking" JsVal.null JsVal.null = true := by rfl

/-- C8: the starling and sparrow entries of the FORMATS table are one and the
same record — same renderer template "starling.template" and same descriptor
extension "xml" — so the two formats are rendered identically. -/
theorem starling_sparrow_same_format :
    FORMATS "starling" = FORMATS "sparrow"
    ∧ FORMATS "starling" = some ⟨"starling.template", "xml", true⟩ :=
  ⟨rfl, rfl⟩

/-- C9 counterexample: a supplied padding of "-3" resolves to the negative
integer -3, and a supplied padding of "abc" resolves to NaN — the resolved
padding is not always a non-negative integer. -/
theorem padding_negative_cex :
    resolvePadding (some ['-', '3']) = some (-3) ∧ ((-3 : Int) < 0)
    ∧ resolvePadding (some ['a', 'b', 'c']) = none :=
  ⟨rfl, by decide, rfl⟩

/-- C9 amended: an absent padding resolves to 0, and a supplied padding is
parseInt(·, 10) of the value — in particular a plain digit string resolves
to a non-negative integer, while negative numerals resolve to negative
integers and non-numeric values to NaN. -/
theorem padding_resolution (s : List Char) (hne : s ≠ [])
    (hdig : ∀ c ∈ s, c.isDigit = true) :
    resolvePadding none = some 0
    ∧ ∃ n : Nat, resolvePadding (some s) = some (n : Int) := by
  refine ⟨rfl, ?_⟩
  obtain ⟨a, t, rfl⟩ := List.exists_cons_of_ne_nil hne
  have ha := hdig a (List.mem_cons_self a t)
  have hws : isJsWhitespace a = false := isDigit_not_ws a ha
  have hm : a ≠ '-' := fun hc => by rw [hc] at ha; exact absurd ha (by decide)
  have hp : a ≠ '+' := fun hc => by rw [hc] at ha; exact absurd ha (by decide)
  have hdw : (a :: t).dropWhile isJsWhitespace = a :: t :=
    List.dropWhile_cons_of_neg (by simp [hws])
  have htw : (a :: t).takeWhile Char.isDigit = a :: t :=
    List.takeWhile_eq_self_iff.mpr hdig
  have hmatch : jsParseInt10 (a :: t) = (digitsVal (a :: t)).map (fun n => (n : Int)) := by
    simp only [jsParseInt10, hdw]
    split
    · rename_i u heq
      rw [List.cons.injEq] at heq
      exact absurd heq.1 hm
    · rename_i u heq
      rw [List.cons.injEq] at heq
      exact absurd heq.1 hp
    · rfl
  have hdv : ∃ m : Nat, digitsVal (a :: t) = some m := by
    refine ⟨(a :: t).foldl (fun acc c => acc * 10 + (c.toNat - '0'.toNat)) 0, ?_⟩
    simp only [digitsVal, htw]
    rfl
  obtain ⟨m, hmv⟩ := hdv
  exact ⟨m, by simp [resolvePadding, hmatch, hmv]⟩

/-- Witness for the amended C9 at the digit string "42". -/
theorem padding_resolution_w :
    resolvePadding none = some 0
    ∧ ∃ n : Nat, resolvePadding (some ['4', '2']) = some (n : Int) :=
  padding_resolution ['4', '2'] (by decide) (by decide)

/-- C10: with no explicit trim and no explicit extension supplied, the
resolved trim flag equals the selected built-in format's registered trim
flag — true exactly for pixi.js, starling and sparrow — and the resolved
descriptor extension equals the format's registered extension. -/
theorem trim_extension_defaults (name : String) (fmt : Format)
    (h : FORMATS name = some fmt) :
    resolveTrim none fmt = (name == "pixi.js" || name == "starling" || name == "sparrow")
    ∧ resolveExtension none fmt = fmt.extension := by
  unfold FORMATS at h
  split at h <;>
    first
      | exact Option.noConfusion h
      | (have hf : _ = fmt := Option.some.inj h
         subst hf
         simp_all [resolveTrim, resolveExtension])

/-- Witness for C10 at the starling format: trim defaults to true, the
extension defaults to "xml". -/
theorem trim_extension_defaults_w :
    resolveTrim none ⟨"starling.template", "xml", true⟩
      = ("starling" == "pixi.js" || "starling" == "starling" || "starling" == "sparrow")
    ∧ resolveExtension none ⟨"starling.template", "xml", true⟩ = "xml" :=
  trim_extension_defaults "starling" ⟨"starling.template", "xml", true⟩ (by rfl)

theorem jsSubstring_zero (l : List Char) (b : Nat) (hb : b ≤ l.length) :
    jsSubstring l 0 (b : Int) = l.take b := by
  have h := jsSubstring_nat l 0 b (Nat.zero_le b) hb
  simpa using h

/-- C6 counterexample: with fullpath enabled and prefix "p_", the source file
"dir/a.png" gets the frame name "dir/a" — the prefix is not applied in the
fullpath branch, refuting the claim's "with the prefix applied as well". -/
theorem fullpath_name_ignores_prefix_cex :
    frameName true ("p_".toList) ("dir/a.png".toList) ("/x/dir/a.png".toList) = "dir/a".toList
    ∧ "dir/a".toList ≠ "p_".toList ++ stripExtension ("dir/a.png".toList) := by
  exact ⟨rfl, by decide⟩

/-- C6 amended: structurally, with the resolved path split at its last slash
and last dot as `A ++ "/" ++ B ++ "." ++ C` and the path-as-given split at
its last dot as `D ++ "." ++ E` — when fullpath is false the emitted name is
the prefix concatenated with the resolved file's base name with its extension
removed, and when fullpath is true it is the file's path as given with its
extension removed, with NO prefix applied. -/
theorem frameName_spec (pfx A B C D E : List Char)
    (hB : '/' ∉ B) (hC : '/' ∉ C) (hCd : '.' ∉ C) (hE : '.' ∉ E) :
    frameName true pfx (D ++ '.' :: E) (A ++ '/' :: (B ++ '.' :: C))
      = stripExtension (D ++ '.' :: E)
    ∧ frameName false pfx (D ++ '.' :: E) (A ++ '/' :: (B ++ '.' :: C))
      = pfx ++ stripExtension (baseNameOf (A ++ '/' :: (B ++ '.' :: C))) := by
  have hre : A ++ '/' :: (B ++ '.' :: C) = (A ++ '/' :: B) ++ '.' :: C := by
    simp [List.append_assoc]
  have hslash : '/' ∉ B ++ '.' :: C := by
    intro hmem
    rcases List.mem_append.mp hmem with hm | hm
    · exact hB hm
    · rcases List.mem_cons.mp hm with hm' | hm'
      · exact absurd hm' (by decide)
      · exact hC hm'
  constructor
  · have hlid : lastIdx? (D ++ '.' :: E) '.' = some D.length := lastIdx?_append_last D E '.' hE
    have hjs : jsLastIndexOf (D ++ '.' :: E) '.' = (D.length : Int) := by
      simp [jsLastIndexOf, hlid]
    show jsSubstring (D ++ '.' :: E) 0 (jsLastIndexOf (D ++ '.' :: E) '.') = _
    rw [hjs, jsSubstring_zero _ _ (by simp), List.take_left' rfl, stripExtension_append D E hE]
  · have hlid1 : lastIdx? (A ++ '/' :: (B ++ '.' :: C)) '/' = some A.length :=
      lastIdx?_append_last A (B ++ '.' :: C) '/' hslash
    have hlid2 : lastIdx? (A ++ '/' :: (B ++ '.' :: C)) '.' = some ((A ++ '/' :: B).length) := by
      rw [hre]
      exact lastIdx?_append_last (A ++ '/' :: B) C '.' hCd
    have hjs1 : jsLastIndexOf (A ++ '/' :: (B ++ '.' :: C)) '/' = (A.length : Int) := by
      simp [jsLastIndexOf, hlid1]
    have hjs2 : jsLastIndexOf (A ++ '/' :: (B ++ '.' :: C)) '.'
        = (((A ++ '/' :: B).length : Nat) : Int) := by
      simp [jsLastIndexOf, hlid2]
    show pfx ++ jsSubstring (A ++ '/' :: (B ++ '.' :: C))
        (jsLastIndexOf (A ++ '/' :: (B ++ '.' :: C)) '/' + 1)
        (jsLastIndexOf (A ++ '/' :: (B ++ '.' :: C)) '.') = _
    rw [hjs1, hjs2, show ((A.length : Int) + 1) = ((A.length + 1 : Nat) : Int) from
      (Nat.cast_add_one A.length).symm]
    rw [jsSubstring_nat _ (A.length + 1) ((A ++ '/' :: B).length)
      (by simp) (by rw [hre]; simp)]
    rw [hre, List.take_left, List.append_cons A '/' B,
      List.drop_left' (by simp : (A ++ ['/']).length = A.length + 1)]
    rw [show A ++ ['/'] ++ B ++ '.' :: C = A ++ '/' :: (B ++ '.' :: C) by simp]
    rw [baseNameOf_append A (B ++ '.' :: C) hslash, stripExtension_append B C hCd]

/-- Witness for the amended C6 at prefix "p_", resolved path "/x/a.png",
path as given "dir/a.png". -/
theorem frameName_spec_w :
    frameName true ("p_".toList) ("dir/a".toList ++ '.' :: "png".toList)
      ("/x".toList ++ '/' :: ("a".toList ++ '.' :: "png".toList))
      = stripExtension ("dir/a".toList ++ '.' :: "png".toList)
    ∧ frameName false ("p_".toList) ("dir/a".toList ++ '.' :: "png".toList)
      ("/x".toList ++ '/' :: ("a".toList ++ '.' :: "png".toList))
      = "p_".toList ++ stripExtension (baseNameOf ("/x".toList ++ '/' :: ("a".toList ++ '.' :: "png".toList))) :=
  frameName_spec ("p_".toList) ("/x".toList) ("a".toList) ("png".toList)
    ("dir/a".toList) ("png".toList) (by decide) (by decide) (by decide) (by decide)

/-- C7: with no name configured, the spritesheet name resolves to the base
name of the source directory: for a first glob match `dir ++ "/" ++ fname`
(the matched file name containing no slash, the directory non-empty and not
slash-terminated), the resolved name is the last slash-separated component
of `dir`. -/
theorem default_name_is_dir_basename (dir fname : List Char) (hd : dir ≠ [])
    (hlast : dir.getLast? ≠ some '/') (hf : fname ≠ []) (hfs : '/' ∉ fname) :
    resolveName none (dir ++ '/' :: fname) = baseNameOf dir := by
  show jsPop (jsSplit (dirname (dir ++ '/' :: fname)) '/') = baseNameOf dir
  rw [dirname_append dir fname hd hlast hf hfs]
  by_cases hmem : '/' ∈ dir
  · have hne : lastIdx? dir '/' ≠ none :=
      fun hnone => ((lastIdx?_eq_none_iff dir '/').mp hnone) hmem
    obtain ⟨j, hj⟩ := Option.ne_none_iff_exists'.mp hne
    obtain ⟨A, B, rfl, hA, hB⟩ := lastIdx?_decomp dir '/' j hj
    rw [baseNameOf_append A B hB]
    have hlp := jsSplit_getLast?_append A B '/' hB
    simp [jsPop, List.getLastD_eq_getLast?, hlp]
  · rw [jsSplit_of_not_mem dir '/' hmem, baseNameOf_of_not_mem dir hmem]
    rfl

/-- Witness for C7: the first match "sub/assets/a.png" with no configured
name resolves to "assets", the base name of the directory "sub/assets". -/
theorem default_name_is_dir_basename_w :
    resolveName none ("sub/assets".toList ++ '/' :: "a.png".toList)
      = baseNameOf ("sub/assets".toList) :=
  default_name_is_dir_basename ("sub/assets".toList) ("a.png".toList)
    (by decide) (by decide) (by decide) (by decide)

theorem replaceEscapedSpaces_eq_self (l : List Char) (h : '\\' ∉ l) :
    replaceEscapedSpaces l = l := by
  induction l with
  | nil => rfl
  | cons c t ih =>
    have hc : c ≠ '\\' := fun hcc => h (hcc ▸ List.mem_cons_self c t)
    have ht : '\\' ∉ t := fun hm => h (List.mem_cons_of_mem c hm)
    rw [replaceEscapedSpaces.eq_def]
    split
    · rename_i heq
      rw [List.cons.injEq] at heq
      exact absurd heq.1 hc
    · rename_i c' t' heq
      rw [List.cons.injEq] at heq
      rw [← heq.1, ← heq.2, ih ht]
    · rename_i heq
      exact absurd heq (by simp)

theorem cleanupFiles_ok_of_no_backslash (files : List (List Char)) (png json : List Char)
    (hnd : files.Nodup) (hp : '\\' ∉ png) (hj : '\\' ∉ json) :
    ∃ fl, cleanupFiles files png json = .ok fl ∧ png ∉ fl ∧ json ∉ fl := by
  by_cases hpm : png ∈ files
  · by_cases hjm : json ∈ files.erase png
    · refine ⟨(files.erase png).erase json, ?_, ?_, ?_⟩
      · simp only [cleanupFiles, unlinkSync, replaceEscapedSpaces_eq_self png hp,
          replaceEscapedSpaces_eq_self json hj, if_pos hpm, if_pos hjm]
      · exact fun hmem => hnd.not_mem_erase ((List.erase_sublist json _).subset hmem)
      · exact (hnd.erase png).not_mem_erase
    · refine ⟨files.erase png, ?_, hnd.not_mem_erase, hjm⟩
      simp only [cleanupFiles, unlinkSync, replaceEscapedSpaces_eq_self png hp,
        if_pos hpm, if_neg hjm]
  · by_cases hjm : json ∈ files
    · refine ⟨files.erase json, ?_,
        fun hmem => hpm ((List.erase_sublist json _).subset hmem), hnd.not_mem_erase⟩
      simp only [cleanupFiles, unlinkSync, replaceEscapedSpaces_eq_self json hj,
        if_neg hpm, if_pos hjm]
    · refine ⟨files, ?_, hpm, hjm⟩
      simp only [cleanupFiles, if_neg hpm, if_neg hjm]

/-- C5 counterexample: the output directory "o" exists and holds a
pre-existing file at the resolved name, but that name contains a
backslash-space.  existsSync finds the file, yet the unlink targets the
rewritten path: when no file exists at the rewritten path the cleanup throws
ENOENT instead of overwriting (first conjunct), and when a file does exist
there the cleanup deletes that other file while the pre-existing file of the
resolved name survives (second and third conjuncts). -/
theorem output_cleanup_backslash_cex :
    outputCleanup id ⟨[['o']], ["o/x\\ y.png".toList]⟩ ['o'] ("x\\ y".toList)
      = Except.error "ENOENT"
    ∧ cleanupFiles ["o/x\\ y.png".toList, "o/x y.png".toList]
        (id (['o'] ++ '/' :: ("x\\ y".toList ++ '.' :: "png".toList)))
        (id (['o'] ++ '/' :: ("x\\ y".toList ++ '.' :: "json".toList)))
      = Except.ok ["o/x\\ y.png".toList]
    ∧ "o/x\\ y.png".toList ∈ ["o/x\\ y.png".toList] := by
  refine ⟨?_, ?_, ?_⟩ <;> first | rfl | decide

/-- C5 amended: for runs whose resolved output paths contain no backslash
(so the escaped-space rewrite of the unlink target is the identity), output
preparation succeeds without error — the output directory is present
afterwards (created when absent); when it already existed, the pre-existing
resolved `<name>.png` and `<name>.json` files have been removed; and the
(spec-modelled) Sink write itself overwrites and never errors, also on a
repeated write of the same path within a run. -/
theorem output_overwrite_prepared (resolve : List Char → List Char) (fs : FS)
    (outPath name : List Char) (hne : outPath ≠ []) (hnd : fs.files.Nodup)
    (hp : '\\' ∉ resolve (outPath ++ '/' :: (name ++ '.' :: "png".toList)))
    (hj : '\\' ∉ resolve (outPath ++ '/' :: (name ++ '.' :: "json".toList))) :
    (∃ fs', outputCleanup resolve fs outPath name = .ok fs'
      ∧ outPath ∈ fs'.dirs
      ∧ (outPath ∈ fs.dirs →
          resolve (outPath ++ '/' :: (name ++ '.' :: "png".toList)) ∉ fs'.files
          ∧ resolve (outPath ++ '/' :: (name ++ '.' :: "json".toList)) ∉ fs'.files))
    ∧ (∀ g p, ∃ g1, sinkWrite g p = Except.ok g1 ∧ ∃ g2, sinkWrite g1 p = Except.ok g2) := by
  refine ⟨?_, fun g p => ⟨_, rfl, _, rfl⟩⟩
  by_cases hdir : outPath ∈ fs.dirs
  · obtain ⟨fl, hok, hpn, hjn⟩ := cleanupFiles_ok_of_no_backslash fs.files _ _ hnd hp hj
    refine ⟨⟨fs.dirs, fl⟩, ?_, hdir, fun _ => ⟨hpn, hjn⟩⟩
    rw [outputCleanup, if_neg (not_not_intro hdir), hok]
    rfl
  · refine ⟨⟨outPath :: fs.dirs, fs.files⟩, ?_, List.mem_cons_self _ _,
      fun hmem => absurd hmem hdir⟩
    rw [outputCleanup, if_pos hdir, if_pos hne]

/-- Witness for the amended C5: an existing output directory "o" holding
"o/n.png", prepared for spritesheet name "n" with `path.resolve` taken as
the identity — the cleanup succeeds and the png is gone. -/
theorem output_overwrite_prepared_w :
    (∃ fs', outputCleanup id ⟨[['o']], [('o' :: '/' :: 'n' :: '.' :: "png".toList)]⟩ ['o'] ['n']
        = Except.ok fs'
      ∧ (['o'] : List Char) ∈ fs'.dirs
      ∧ ((['o'] : List Char) ∈ (FS.mk [['o']] [('o' :: '/' :: 'n' :: '.' :: "png".toList)]).dirs →
          id (['o'] ++ '/' :: (['n'] ++ '.' :: "png".toList)) ∉ fs'.files
          ∧ id (['o'] ++ '/' :: (['n'] ++ '.' :: "json".toList)) ∉ fs'.files))
    ∧ (∀ g p, ∃ g1, sinkWrite g p = Except.ok g1 ∧ ∃ g2, sinkWrite g1 p = Except.ok g2) :=
  output_overwrite_prepared id ⟨[['o']], [('o' :: '/' :: 'n' :: '.' :: "png".toList)]⟩ ['o'] ['n']
    (by decide) (by decide) (by decide) (by decide)

end Spritesheet
